import Mathlib

/-!
Verification of the DateRangeIntervals repository (src/DateRangeIntervals.js).

The JavaScript code partitions a UTC date range into intervals at a chosen
granularity and traverses them with a visitor that may request recursive
subdivision.  Timestamps are modelled as integers (milliseconds since the
epoch); `Date` field arithmetic (`setUTCSeconds`, `setUTCMonth`, ...) is
embedded following the ECMA-262 `Date` algorithms (Day, DayFromYear,
MonthFromTime, MakeDay, MakeDate), which is the semantics the source relies
on.  All JavaScript time values in range are exact integers (|t| <= 8.64e15
< 2^53), so integer arithmetic is faithful; the TimeClip saturation to NaN
outside that range is not modelled (it is unreachable for validated inputs,
and an overflowing cursor exits the construction loop in the code exactly as
an over-large integer does here).
-/

namespace DRI

/-- ECMA-262 Day(t): the day number containing time value `t`
(floor division; Lean's `/` on `Int` is floor division for a
positive divisor). msPerDay = 86400000. -/
def dayNumber (t : Int) : Int := t / 86400000

/-- ECMA-262 TimeWithinDay(t) = t modulo msPerDay (nonnegative remainder). -/
def timeWithinDay (t : Int) : Int := t % 86400000

/-- ECMA-262 DayFromYear(y): day number of 1 January of year `y`. -/
def dayFromYear (y : Int) : Int :=
  365 * (y - 1970) + (y - 1969) / 4 - (y - 1901) / 100 + (y - 1601) / 400

/-- ECMA-262 InLeapYear, via the DaysInYear divisibility rules. -/
def inLeapYear (y : Int) : Bool :=
  decide ((y % 4 = 0 ∧ y % 100 ≠ 0) ∨ y % 400 = 0)

/-- The leap-year adjustment bit as an integer. -/
def leapBit (leap : Bool) : Int := if leap then 1 else 0

/-- Cumulative day-of-year offset of the first day of month `m`
(0 = January .. 11 = December), per the ECMA-262 month tables. -/
def dayFromMonth (leap : Bool) (m : Int) : Int :=
  if m ≤ 0 then 0
  else if m = 1 then 31
  else if m = 2 then 59 + leapBit leap
  else if m = 3 then 90 + leapBit leap
  else if m = 4 then 120 + leapBit leap
  else if m = 5 then 151 + leapBit leap
  else if m = 6 then 181 + leapBit leap
  else if m = 7 then 212 + leapBit leap
  else if m = 8 then 243 + leapBit leap
  else if m = 9 then 273 + leapBit leap
  else if m = 10 then 304 + leapBit leap
  else 334 + leapBit leap

/-- ECMA-262 MonthFromTime, as a function of the day within the year. -/
def monthFromDayWithinYear (leap : Bool) (d : Int) : Int :=
  if d < 31 then 0
  else if d < 59 + leapBit leap then 1
  else if d < 90 + leapBit leap then 2
  else if d < 120 + leapBit leap then 3
  else if d < 151 + leapBit leap then 4
  else if d < 181 + leapBit leap then 5
  else if d < 212 + leapBit leap then 6
  else if d < 243 + leapBit leap then 7
  else if d < 273 + leapBit leap then 8
  else if d < 304 + leapBit leap then 9
  else if d < 334 + leapBit leap then 10
  else 11

/-- Search for ECMA-262 YearFromTime: walk from an initial estimate to the
unique year `y` with `dayFromYear y ≤ d < dayFromYear (y+1)`. -/
def yearSearch (d : Int) : Nat → Int → Int
  | 0, y => y
  | f + 1, y =>
    if d < dayFromYear y then yearSearch d f (y - 1)
    else if d < dayFromYear (y + 1) then y
    else yearSearch d f (y + 1)

/-- ECMA-262 YearFromTime as a function of the day number: the largest year
`y` with `dayFromYear y ≤ d`.  The initial estimate `1970 + d / 366` is
within `|d| / 150000 + 2` years of the answer over the whole JavaScript
time-value range, so the fuel suffices there. -/
def yearFromDay (d : Int) : Int :=
  yearSearch d (d.natAbs / 150000 + 4) (1970 + d / 366)

def yearFromTime (t : Int) : Int := yearFromDay (dayNumber t)

/-- ECMA-262 DayWithinYear(t). -/
def dayWithinYear (t : Int) : Int := dayNumber t - dayFromYear (yearFromTime t)

def monthFromTime (t : Int) : Int :=
  monthFromDayWithinYear (inLeapYear (yearFromTime t)) (dayWithinYear t)

/-- ECMA-262 DateFromTime(t): the day of the month, starting from 1. -/
def dateFromTime (t : Int) : Int :=
  dayWithinYear t - dayFromMonth (inLeapYear (yearFromTime t)) (monthFromTime t) + 1

def hourFromTime (t : Int) : Int := (t / 3600000) % 24
def minFromTime (t : Int) : Int := (t / 60000) % 60
def secFromTime (t : Int) : Int := (t / 1000) % 60
def msFromTime (t : Int) : Int := t % 1000

/-- ECMA-262 MakeTime. -/
def makeTime (h m s ms : Int) : Int := h * 3600000 + m * 60000 + s * 1000 + ms

/-- ECMA-262 MakeDay: day number of day `d` of month `m` of year `y`,
with month overflow normalised into the year. -/
def makeDay (y m d : Int) : Int :=
  dayFromYear (y + m / 12) + dayFromMonth (inLeapYear (y + m / 12)) (m % 12) + d - 1

/-- ECMA-262 MakeDate. -/
def makeDate (d t : Int) : Int := d * 86400000 + t

/-- `curDate.setUTCSeconds(curDate.getUTCSeconds() + 1)`. -/
def setSecondsPlus (k t : Int) : Int :=
  makeDate (dayNumber t)
    (makeTime (hourFromTime t) (minFromTime t) (secFromTime t + k) (msFromTime t))

/-- `curDate.setUTCMinutes(curDate.getUTCMinutes() + 1)`. -/
def setMinutesPlus (k t : Int) : Int :=
  makeDate (dayNumber t)
    (makeTime (hourFromTime t) (minFromTime t + k) (secFromTime t) (msFromTime t))

/-- `curDate.setUTCHours(curDate.getUTCHours() + 1)`. -/
def setHoursPlus (k t : Int) : Int :=
  makeDate (dayNumber t)
    (makeTime (hourFromTime t + k) (minFromTime t) (secFromTime t) (msFromTime t))

/-- `curDate.setUTCDate(curDate.getUTCDate() + k)` (k = 1 for day, 7 for week). -/
def setDatePlus (k t : Int) : Int :=
  makeDate (makeDay (yearFromTime t) (monthFromTime t) (dateFromTime t + k))
    (timeWithinDay t)

/-- `curDate.setUTCMonth(curDate.getUTCMonth() + k)` (k = 1 for month, 3 for quarter). -/
def setMonthPlus (k t : Int) : Int :=
  makeDate (makeDay (yearFromTime t) (monthFromTime t + k) (dateFromTime t))
    (timeWithinDay t)

/-- `curDate.setUTCFullYear(curDate.getUTCFullYear() + 1)`. -/
def setFullYearPlus (k t : Int) : Int :=
  makeDate (makeDay (yearFromTime t + k) (monthFromTime t) (dateFromTime t))
    (timeWithinDay t)

/-- The eight recognised granularities. -/
inductive IntervalUnit where
  | second | minute | hour | day | week | month | quarter | year
deriving DecidableEq, Inhabited

/-- The `advanceByInterval` table of the source. -/
def advance : IntervalUnit → Int → Int
  | .second => setSecondsPlus 1
  | .minute => setMinutesPlus 1
  | .hour => setHoursPlus 1
  | .day => setDatePlus 1
  | .week => setDatePlus 7
  | .month => setMonthPlus 1
  | .quarter => setMonthPlus 3
  | .year => setFullYearPlus 1

/-- The `lowerInterval` table of the source (`second` has no finer unit). -/
def lowerInterval : IntervalUnit → Option IntervalUnit
  | .second => none
  | .minute => some .second
  | .hour => some .minute
  | .day => some .hour
  | .week => some .day
  | .month => some .day
  | .quarter => some .month
  | .year => some .month

/-- Depth of a unit in the refinement chain; `lowerInterval` strictly
decreases it, so it bounds the recursion depth of a traversal. -/
def unitRank : IntervalUnit → Nat
  | .second => 0
  | .minute => 1
  | .hour => 2
  | .day => 3
  | .week => 4
  | .month => 4
  | .quarter => 5
  | .year => 5

/-- The keys of the `advanceByInterval` object literal. -/
def unitFromString : String → Option IntervalUnit
  | "second" => some .second
  | "minute" => some .minute
  | "hour" => some .hour
  | "day" => some .day
  | "week" => some .week
  | "month" => some .month
  | "quarter" => some .quarter
  | "year" => some .year
  | _ => none

def unitName : IntervalUnit → String
  | .second => "second"
  | .minute => "minute"
  | .hour => "hour"
  | .day => "day"
  | .week => "week"
  | .month => "month"
  | .quarter => "quarter"
  | .year => "year"

/-- Day number of the first day of the month with linear index `i`
(year `i / 12`, month `i % 12`). -/
def startOfMonthIdx (i : Int) : Int :=
  dayFromYear (i / 12) + dayFromMonth (inLeapYear (i / 12)) (i % 12)

/-! Arithmetic facts about the calendar embedding: every `advance` step
strictly increases the time value.  None of them needs the year search to
be correct: the extraction/rebuild round trip cancels algebraically. -/

theorem leapBit_bounds (L : Bool) : 0 ≤ leapBit L ∧ leapBit L ≤ 1 := by
  cases L <;> simp [leapBit]

theorem monthFromDayWithinYear_range (L : Bool) (d : Int) :
    0 ≤ monthFromDayWithinYear L d ∧ monthFromDayWithinYear L d ≤ 11 := by
  have h : ∀ x : Int, x = monthFromDayWithinYear L d → 0 ≤ x ∧ x ≤ 11 := by
    unfold monthFromDayWithinYear
    intro x hx
    split at hx <;> omega
  exact h _ rfl

theorem dayFromMonth_zero (L : Bool) : dayFromMonth L 0 = 0 := by
  cases L <;> rfl

theorem dayFromMonth_eleven (L : Bool) :
    dayFromMonth L 11 = 334 + leapBit L := by
  cases L <;> rfl

theorem dayFromMonth_step (L : Bool) (r : Int) (h0 : 0 ≤ r) (h1 : r ≤ 10) :
    dayFromMonth L r + 28 ≤ dayFromMonth L (r + 1) := by
  interval_cases r <;> cases L <;> decide

theorem dayFromMonth_leap_le (L : Bool) (r : Int) (h0 : 0 ≤ r) (h1 : r ≤ 11) :
    dayFromMonth false r ≤ dayFromMonth L r ∧
      dayFromMonth L r ≤ dayFromMonth false r + 1 := by
  interval_cases r <;> cases L <;> decide

theorem dayFromYear_succ (y : Int) :
    dayFromYear y + 365 ≤ dayFromYear (y + 1) ∧
      dayFromYear (y + 1) ≤ dayFromYear y + 366 := by
  unfold dayFromYear
  omega

theorem startOfMonthIdx_add_one (i : Int) :
    startOfMonthIdx i + 28 ≤ startOfMonthIdx (i + 1) := by
  by_cases h : i % 12 = 11
  · have h1 : (i + 1) / 12 = i / 12 + 1 := by omega
    have h2 : (i + 1) % 12 = 0 := by omega
    unfold startOfMonthIdx
    rw [h1, h2, h, dayFromMonth_zero, dayFromMonth_eleven]
    have h3 := dayFromYear_succ (i / 12)
    have hb := leapBit_bounds (inLeapYear (i / 12))
    omega
  · have hr0 : 0 ≤ i % 12 := Int.emod_nonneg i (by norm_num)
    have hr1 : i % 12 ≤ 10 := by omega
    have h1 : (i + 1) / 12 = i / 12 := by omega
    have h2 : (i + 1) % 12 = i % 12 + 1 := by omega
    unfold startOfMonthIdx
    rw [h1, h2]
    have h3 := dayFromMonth_step (inLeapYear (i / 12)) (i % 12) hr0 hr1
    omega

theorem startOfMonthIdx_strict (i k : Int) (hk : 1 ≤ k) :
    startOfMonthIdx i < startOfMonthIdx (i + k) := by
  refine @Int.le_induction (fun z => startOfMonthIdx i < startOfMonthIdx (i + z))
    1 ?_ ?_ k hk
  · have := startOfMonthIdx_add_one i
    omega
  · intro n _ ih
    have h1 := startOfMonthIdx_add_one (i + n)
    have h2 : i + (n + 1) = i + n + 1 := by ring
    rw [h2]
    omega

theorem makeTime_decomp (t : Int) :
    makeTime (hourFromTime t) (minFromTime t) (secFromTime t) (msFromTime t) =
      t % 86400000 := by
  unfold makeTime hourFromTime minFromTime secFromTime msFromTime
  omega

theorem setSecondsPlus_eq (k t : Int) : setSecondsPlus k t = t + k * 1000 := by
  unfold setSecondsPlus makeDate makeTime dayNumber hourFromTime minFromTime
    secFromTime msFromTime
  omega

theorem setMinutesPlus_eq (k t : Int) : setMinutesPlus k t = t + k * 60000 := by
  unfold setMinutesPlus makeDate makeTime dayNumber hourFromTime minFromTime
    secFromTime msFromTime
  omega

theorem setHoursPlus_eq (k t : Int) : setHoursPlus k t = t + k * 3600000 := by
  unfold setHoursPlus makeDate makeTime dayNumber hourFromTime minFromTime
    secFromTime msFromTime
  omega

theorem monthFromTime_range (t : Int) :
    0 ≤ monthFromTime t ∧ monthFromTime t ≤ 11 :=
  monthFromDayWithinYear_range _ _

/-- The field extraction and MakeDay round trip: rebuilding the current
day from the extracted year, month and day-of-month gives the day back.
This is pure algebra (the day-of-month is defined as the remainder), so it
holds whatever year the bounded search returns. -/
theorem makeDay_roundtrip (t : Int) :
    makeDay (yearFromTime t) (monthFromTime t) (dateFromTime t) = dayNumber t := by
  have hm := monthFromTime_range t
  have h1 : monthFromTime t / 12 = 0 := by omega
  have h2 : monthFromTime t % 12 = monthFromTime t := by omega
  unfold makeDay dateFromTime dayWithinYear
  rw [h1, h2, add_zero]
  omega

theorem makeDay_date_shift (y m d k : Int) :
    makeDay y m (d + k) = makeDay y m d + k := by
  unfold makeDay
  omega

theorem setDatePlus_eq (k t : Int) : setDatePlus k t = t + k * 86400000 := by
  unfold setDatePlus
  rw [makeDay_date_shift, makeDay_roundtrip]
  unfold makeDate dayNumber timeWithinDay
  omega

theorem setMonthPlus_gt (k t : Int) (hk : 1 ≤ k) : t < setMonthPlus k t := by
  have hm := monthFromTime_range t
  have hidx : startOfMonthIdx (12 * yearFromTime t + monthFromTime t) <
      startOfMonthIdx (12 * yearFromTime t + monthFromTime t + k) :=
    startOfMonthIdx_strict _ k hk
  have hbase : startOfMonthIdx (12 * yearFromTime t + monthFromTime t) =
      dayFromYear (yearFromTime t) +
        dayFromMonth (inLeapYear (yearFromTime t)) (monthFromTime t) := by
    unfold startOfMonthIdx
    have h1 : (12 * yearFromTime t + monthFromTime t) / 12 = yearFromTime t := by
      omega
    have h2 : (12 * yearFromTime t + monthFromTime t) % 12 = monthFromTime t := by
      omega
    rw [h1, h2]
  have htarget : startOfMonthIdx (12 * yearFromTime t + monthFromTime t + k) =
      dayFromYear (yearFromTime t + (monthFromTime t + k) / 12) +
        dayFromMonth (inLeapYear (yearFromTime t + (monthFromTime t + k) / 12))
          ((monthFromTime t + k) % 12) := by
    unfold startOfMonthIdx
    have h1 : (12 * yearFromTime t + monthFromTime t + k) / 12 =
        yearFromTime t + (monthFromTime t + k) / 12 := by
      omega
    have h2 : (12 * yearFromTime t + monthFromTime t + k) % 12 =
        (monthFromTime t + k) % 12 := by
      omega
    rw [h1, h2]
  have hday := makeDay_roundtrip t
  have h1 : monthFromTime t / 12 = 0 := by omega
  have h2 : monthFromTime t % 12 = monthFromTime t := by omega
  unfold makeDay at hday
  rw [h1, h2, add_zero, ← hbase] at hday
  unfold setMonthPlus makeDay makeDate timeWithinDay
  rw [← htarget]
  unfold dayNumber at hday
  omega

theorem setFullYearPlus_gt (t : Int) : t < setFullYearPlus 1 t := by
  have hm := monthFromTime_range t
  have hy := dayFromYear_succ (yearFromTime t)
  have hl1 := dayFromMonth_leap_le (inLeapYear (yearFromTime t)) (monthFromTime t)
    (by omega) (by omega)
  have hl2 := dayFromMonth_leap_le (inLeapYear (yearFromTime t + 1)) (monthFromTime t)
    (by omega) (by omega)
  have hday := makeDay_roundtrip t
  have h1 : monthFromTime t / 12 = 0 := by omega
  have h2 : monthFromTime t % 12 = monthFromTime t := by omega
  unfold makeDay at hday
  rw [h1, h2, add_zero] at hday
  unfold setFullYearPlus makeDay makeDate timeWithinDay
  rw [h1, h2, add_zero]
  unfold dayNumber at hday
  omega

/-- Every unit advance strictly increases the time value; this is what makes
the construction loop of `DateRangeIntervals` terminate and the boundary
sequence strictly increasing. -/
theorem advance_gt (u : IntervalUnit) (t : Int) : t < advance u t := by
  cases u
  · rw [advance, setSecondsPlus_eq]; omega
  · rw [advance, setMinutesPlus_eq]; omega
  · rw [advance, setHoursPlus_eq]; omega
  · rw [advance, setDatePlus_eq]; omega
  · rw [advance, setDatePlus_eq]; omega
  · exact setMonthPlus_gt 1 t (by norm_num)
  · exact setMonthPlus_gt 3 t (by norm_num)
  · exact setFullYearPlus_gt t

/-! Construction of a `DateRangeIntervals` object.  The `start` and `end`
arguments of the constructor are arbitrary JavaScript values; the ones whose
behaviour differs are modelled individually.  A nonempty string carries its
date-parse result as data, because ECMA-262 leaves most of string date
parsing implementation-defined; `new Date('')` is always an Invalid Date. -/

inductive JSVal where
  /-- `undefined`: falsy, `new Date(undefined)` is Invalid Date. -/
  | undef
  /-- `null`: falsy, `new Date(null)` is the epoch. -/
  | nullV
  /-- `NaN`: falsy, `new Date(NaN)` is Invalid Date. -/
  | nanNum
  /-- a finite number: falsy iff 0, the time value itself. -/
  | num (n : Int)
  /-- the empty string: falsy, parses to Invalid Date. -/
  | emptyStr
  /-- a nonempty string: truthy, with its (implementation-defined) parse. -/
  | strVal (parse : Option Int)
  /-- a `Date` object: truthy (all objects are), valid or invalid. -/
  | dateObj (t : Option Int)
  /-- a boolean: truthy iff true, `new Date(b)` coerces to 0 or 1. -/
  | boolJ (b : Bool)
deriving DecidableEq

/-- JavaScript truthiness, as tested by `if(!start || !end)`. -/
def truthy : JSVal → Bool
  | .undef => false
  | .nullV => false
  | .nanNum => false
  | .num n => decide (n ≠ 0)
  | .emptyStr => false
  | .strVal _ => true
  | .dateObj _ => true
  | .boolJ b => b

/-- The time value of `new Date(v)`: `none` is an Invalid Date (NaN time). -/
def toInstant : JSVal → Option Int
  | .undef => none
  | .nullV => some 0
  | .nanNum => none
  | .num n => some n
  | .emptyStr => none
  | .strVal p => p
  | .dateObj t => t
  | .boolJ b => some (if b then 1 else 0)

/-- The distinct `throw` sites of the constructor, in source order. -/
inductive ConstructError where
  /-- `'Start and end dates required'` -/
  | missingInput
  /-- `'Invalid start date'` -/
  | invalidStartDate
  /-- `'Invalid end date'` -/
  | invalidEndDate
  /-- `'Start must be before end'` -/
  | startNotBeforeEnd
  /-- `Invalid interval '...' provided.` -/
  | invalidUnit
deriving DecidableEq

/-- The spec groups the first four construction errors as `InvalidInput`. -/
def isInvalidInput : ConstructError → Bool
  | .invalidUnit => false
  | _ => true

/-- The `while(curDate < endDate)` loop: returns the pushed boundaries and
the final cursor value.  The loop runs at most `endT - cur` times because
each advance adds at least one millisecond, so that much fuel makes the
fuel-free semantics exact. -/
def buildSegs (u : IntervalUnit) (endT : Int) : Nat → Int → List Int × Int
  | 0, cur => ([], cur)
  | f + 1, cur =>
    if cur < endT then
      let r := buildSegs u endT f (advance u cur)
      (cur :: r.1, r.2)
    else ([], cur)

/-- The `segments` array after the loop: pushed boundaries plus `endDate`. -/
def segmentsFor (s endT : Int) (u : IntervalUnit) : List Int :=
  (buildSegs u endT (endT - s).toNat s).1 ++ [endT]

/-- The value of `curDate` after the loop (used for `isEquipartition`). -/
def finalCursor (s endT : Int) (u : IntervalUnit) : Int :=
  (buildSegs u endT (endT - s).toNat s).2

/-- Iterated advance: `iterAdv u n s` is the cursor after `n` whole-unit
steps from `s`. -/
def iterAdv (u : IntervalUnit) : Nat → Int → Int
  | 0, c => c
  | n + 1, c => iterAdv u n (advance u c)

/-- The constructed `DateRangeIntervals` object.  All its properties are
defined with `Object.defineProperties` without `writable`, hence read-only;
`startT`/`endT` model the `start`/`end` Date-valued properties. -/
structure IntervalSet where
  segments : List Int
  startT : Int
  endT : Int
  unit : IntervalUnit
  isEquipartition : Bool
deriving DecidableEq

/-- The `length` property: `segments.length - 1`. -/
def IntervalSet.length (iv : IntervalSet) : Nat := iv.segments.length - 1

def mkSet (s endT : Int) (u : IntervalUnit) : IntervalSet :=
  { segments := segmentsFor s endT u
    startT := s
    endT := endT
    unit := u
    isEquipartition := decide (finalCursor s endT u = endT) }

/-- `new DateRangeIntervals(start, end, interval)`, with the validations in
source order: presence (falsiness) of both arguments, start parse, end
parse, `startDate >= endDate`, then the `advanceByInterval` lookup. -/
def construct (a b : JSVal) (interval : String) :
    Except ConstructError IntervalSet :=
  if truthy a = false ∨ truthy b = false then .error .missingInput
  else
    match toInstant a with
    | none => .error .invalidStartDate
    | some s =>
      match toInstant b with
      | none => .error .invalidEndDate
      | some endT =>
        if endT ≤ s then .error .startNotBeforeEnd
        else
          match unitFromString interval with
          | none => .error .invalidUnit
          | some u => .ok (mkSet s endT u)

/-- A `DateRangeInterval` as yielded by the iterator: copies of two adjacent
boundaries, tagged with the unit. -/
structure DateRangeInterval where
  startT : Int
  endT : Int
  unit : IntervalUnit
deriving DecidableEq, Inhabited

/-- Adjacent pairs of a boundary list (`segments[i], segments[i+1]`). -/
def adjacentPairs : List Int → List (Int × Int)
  | x :: y :: rest => (x, y) :: adjacentPairs (y :: rest)
  | _ => []

/-- The full (restartable, deterministic) iteration of the set. -/
def intervalsOf (iv : IntervalSet) : List DateRangeInterval :=
  (adjacentPairs iv.segments).map fun p => ⟨p.1, p.2, iv.unit⟩

/-! The visitor and the `accept` traversal.  The visitor callback runs with
`this` bound to the visitor, so it reads `depth`/`subIntervals` and mutates
caller-attached state of type `σ`; it returns the descend signal or throws.
The traversal is a pure state-threading function that also records the
sequence of `visit` invocations (depth at call time, interval bounds, unit,
and whether the callback returned or threw). -/

/-- Result of one callback invocation: a return value (the descend signal,
already coerced to its truthiness) or a thrown error. -/
inductive VisitResult where
  | ret (descend : Bool)
  | thrown
deriving DecidableEq

/-- The mutable visitor fields: `depth`, `subIntervals`, and the
caller-attached state. -/
structure VState (σ : Type) where
  depth : Int
  subIntervals : Bool
  user : σ
deriving DecidableEq

/-- A visitor callback: reads the visitor fields and the interval, yields
the new caller state and its outcome.  (State updates made before a throw
persist, as in JavaScript.) -/
def Callback (σ : Type) : Type :=
  VState σ → DateRangeInterval → σ × VisitResult

/-- A genuine `DateRangeIntervalVisitor` instance. -/
structure Visitor (σ : Type) where
  state : VState σ
  visit : Callback σ

/-- One recorded `visitor.visit(interval)` invocation. -/
structure VisitEvent where
  depth : Int
  startT : Int
  endT : Int
  unit : IntervalUnit
  ok : Bool
deriving DecidableEq, Inhabited

/-- One iteration of the `for(const interval of this)` loop in `accept`,
for the interval `(s, e)`.  `child` performs the recursive descent (it is
instantiated with the next-lower fuel by `acceptLevel`).  Per the source:
visit; if the result is truthy and `visitor.subIntervals` and a lower
interval exists, increment `depth`, recurse over a freshly constructed set
on the interval's bounds at the lower unit, and decrement `depth` afterwards
(the `finally`); a callback throw is caught, logged, and the loop continues
with the next interval, so the throw case yields just the one event. -/
def visitOne (cb : Callback σ)
    (child : IntervalUnit → Int → Int → VState σ → VState σ × List VisitEvent)
    (u : IntervalUnit) (s e : Int) (vs : VState σ) :
    VState σ × List VisitEvent :=
  match cb vs ⟨s, e, u⟩ with
  | (w, .thrown) => ({ vs with user := w }, [⟨vs.depth, s, e, u, false⟩])
  | (w, .ret descend) =>
    match lowerInterval u with
    | none => ({ vs with user := w }, [⟨vs.depth, s, e, u, true⟩])
    | some lu =>
      if descend ∧ vs.subIntervals then
        let desc := child lu s e ⟨vs.depth + 1, vs.subIntervals, w⟩
        ({ desc.1 with depth := desc.1.depth - 1 },
          ⟨vs.depth, s, e, u, true⟩ :: desc.2)
      else ({ vs with user := w }, [⟨vs.depth, s, e, u, true⟩])

/-- One level of the `accept` loop over the whole interval list. -/
def processLevel (cb : Callback σ)
    (child : IntervalUnit → Int → Int → VState σ → VState σ × List VisitEvent)
    (u : IntervalUnit) :
    List (Int × Int) → VState σ → VState σ × List VisitEvent
  | [], vs => (vs, [])
  | (s, e) :: rest, vs =>
    let one := visitOne cb child u s e vs
    let next := processLevel cb child u rest one.1
    (next.1, one.2 ++ next.2)

/-- The recursive traversal, structured on a fuel that the unit-refinement
rank bounds: every descent constructs
`new DateRangeIntervals(interval.start, interval.end, lowerInterval)` and
accepts the same visitor on it.  With fuel `unitRank u + 1` the zero case is
unreachable, so this is the exact semantics of `accept`'s recursion. -/
def acceptLevel (cb : Callback σ) :
    Nat → IntervalUnit → List (Int × Int) → VState σ → VState σ × List VisitEvent
  | 0, _, _, vs => (vs, [])
  | f + 1, u, pairs, vs =>
    processLevel cb
      (fun lu s e vs' =>
        match construct (.dateObj (some s)) (.dateObj (some e)) (unitName lu) with
        | .ok child => acceptLevel cb f lu (adjacentPairs child.segments) vs'
        | .error _ => (vs', []))
      u pairs vs

/-- The argument passed to `accept`: `instanceof DateRangeIntervalVisitor`
distinguishes a genuine instance from everything else, including plain
objects that merely carry look-alike fields and bare callables. -/
inductive AcceptArg (σ : Type) where
  /-- a genuine `DateRangeIntervalVisitor` -/
  | genuine (v : Visitor σ)
  /-- a plain object, possibly duck-typed with the protocol fields -/
  | plainObject (hasVisit hasDepth hasSubIntervals : Bool)
  /-- a bare function -/
  | bareFunction
  /-- any primitive value -/
  | primitive (v : JSVal)

def AcceptArg.isGenuine : AcceptArg σ → Bool
  | .genuine _ => true
  | _ => false

inductive AcceptError where
  /-- `'Invalid visitor: accepts only DateRangeIntervalVisitor'` -/
  | invalidVisitor
deriving DecidableEq

/-- `intervals.accept(visitor)`: the `instanceof` guard, then the traversal.
A genuine visitor's traversal always completes (visitor errors are caught
inside the loop), so the promise only rejects on the guard. -/
def acceptJS (iv : IntervalSet) (arg : AcceptArg σ) :
    Except AcceptError (VState σ × List VisitEvent) :=
  match arg with
  | .genuine v =>
    .ok (acceptLevel v.visit (unitRank iv.unit + 1) iv.unit
      (adjacentPairs iv.segments) v.state)
  | _ => .error .invalidVisitor

/-- The argument passed to `new DateRangeIntervalVisitor(fn)`:
`typeof fn !== 'function'` rejects everything but a function. -/
inductive JSCallable (σ : Type) where
  | func (f : Callback σ)
  | notFunc (v : JSVal)

/-- `new DateRangeIntervalVisitor(fn)`: rejects a non-function, otherwise
initialises `depth = 0` and `subIntervals = false` and stores the callback.
`init` is the caller-attached state (attached fields start out empty). -/
def mkVisitor (c : JSCallable σ) (init : σ) : Except AcceptError (Visitor σ) :=
  match c with
  | .func f => .ok { state := { depth := 0, subIntervals := false, user := init }, visit := f }
  | .notFunc _ => .error .invalidVisitor

/-- The descent performed by `accept`: construct a child set over the
interval's bounds at the lower unit, and accept the same visitor on it. -/
def acceptChild (cb : Callback σ) (f : Nat) (lu : IntervalUnit) (s e : Int)
    (vs : VState σ) : VState σ × List VisitEvent :=
  match construct (.dateObj (some s)) (.dateObj (some e)) (unitName lu) with
  | .ok child => acceptLevel cb f lu (adjacentPairs child.segments) vs
  | .error _ => (vs, [])

/-- What each recursive descent guarantees: it restores `depth` and
`subIntervals`, and every visit it records happens at its own depth or
deeper. -/
def ChildSpec
    (child : IntervalUnit → Int → Int → VState σ → VState σ × List VisitEvent) :
    Prop :=
  ∀ (lu : IntervalUnit) (s e : Int) (vs : VState σ),
    (child lu s e vs).1.depth = vs.depth ∧
    (child lu s e vs).1.subIntervals = vs.subIntervals ∧
    ∀ ev ∈ (child lu s e vs).2, vs.depth ≤ ev.depth

/-! The object-property layer: `Object.defineProperties` without `writable`
creates read-only properties, so assignment to them is silently ignored in
non-strict mode.  This models the set's and a yielded interval's property
tables and the JavaScript write semantics. -/

/-- A value readable from one of the defined properties. -/
inductive PropVal where
  | dateV (t : Int)
  | strV (s : String)
  | numV (n : Nat)
  | boolV (b : Bool)
deriving DecidableEq

/-- The enumerable/defined properties of a `DateRangeIntervals` object. -/
inductive SetProp where
  | startProp | endProp | intervalProp | lengthProp | isEquipartitionProp
deriving DecidableEq

/-- The property table `Object.defineProperties` installs on the set:
each property's value and its `writable` attribute (absent, hence false). -/
def propTable (iv : IntervalSet) : SetProp → PropVal × Bool
  | .startProp => (.dateV iv.startT, false)
  | .endProp => (.dateV iv.endT, false)
  | .intervalProp => (.strV (unitName iv.unit), false)
  | .lengthProp => (.numV iv.length, false)
  | .isEquipartitionProp => (.boolV iv.isEquipartition, false)

/-- The defined properties of a yielded `DateRangeInterval` object. -/
inductive IntProp where
  | startProp | endProp | intervalProp
deriving DecidableEq

def intervalPropTable (i : DateRangeInterval) : IntProp → PropVal × Bool
  | .startProp => (.dateV i.startT, false)
  | .endProp => (.dateV i.endT, false)
  | .intervalProp => (.strV (unitName i.unit), false)

/-- A property assignment `obj[n] = v` in non-strict mode: it only takes
effect when the property is writable. -/
def writeProp [DecidableEq π] (tbl : π → PropVal × Bool) (n : π) (v : PropVal) :
    π → PropVal × Bool :=
  fun m => if m = n ∧ (tbl n).2 = true then (v, (tbl n).2) else tbl m

/-- A sequence of property assignments, applied in order. -/
def applyWrites [DecidableEq π] (tbl : π → PropVal × Bool) :
    List (π × PropVal) → (π → PropVal × Bool)
  | [] => tbl
  | (n, v) :: rest => applyWrites (writeProp tbl n v) rest

/-! Concrete scenarios used to settle the claims. -/

/-- 2024-01-01T00:00:00Z. -/
def jan1 : Int := 1704067200000

/-- The descent-scenario visitor callback of the spec: requests descent for
every interval at depth at most 1 and refuses (returns a falsy value,
without recording) at deeper levels; the caller state accumulates the
recorded `(start, end)` pairs and a visit counter. -/
def cbDescend : Callback (List (Int × Int) × Nat) := fun vs i =>
  if 1 < vs.depth then (vs.user, .ret false)
  else ((vs.user.1 ++ [(i.startT, i.endT)], vs.user.2 + 1), .ret true)

/-- The interval set for 2024-01-01 → 2025-01-01 at unit `quarter`. -/
def quarterSet : IntervalSet :=
  mkSet jan1 (jan1 + 366 * 86400000) IntervalUnit.quarter

/-- The full traversal of `quarterSet` by `cbDescend` with `subIntervals`
enabled: final visitor state and the recorded visit trace. -/
def quarterRun : VState (List (Int × Int) × Nat) × List VisitEvent :=
  acceptLevel cbDescend (unitRank quarterSet.unit + 1) quarterSet.unit
    (adjacentPairs quarterSet.segments) ⟨0, true, ([], 0)⟩

/-- The sixteen visits at depth at most 1 that the spec's descent scenario
describes, in pre-order: each quarter, immediately followed by its three
months. -/
def expectedSixteen : List (Int × Int × Int) :=
  [(0, jan1, jan1 + 91 * 86400000),
   (1, jan1, jan1 + 31 * 86400000),
   (1, jan1 + 31 * 86400000, jan1 + 60 * 86400000),
   (1, jan1 + 60 * 86400000, jan1 + 91 * 86400000),
   (0, jan1 + 91 * 86400000, jan1 + 182 * 86400000),
   (1, jan1 + 91 * 86400000, jan1 + 121 * 86400000),
   (1, jan1 + 121 * 86400000, jan1 + 152 * 86400000),
   (1, jan1 + 152 * 86400000, jan1 + 182 * 86400000),
   (0, jan1 + 182 * 86400000, jan1 + 274 * 86400000),
   (1, jan1 + 182 * 86400000, jan1 + 213 * 86400000),
   (1, jan1 + 213 * 86400000, jan1 + 244 * 86400000),
   (1, jan1 + 244 * 86400000, jan1 + 274 * 86400000),
   (0, jan1 + 274 * 86400000, jan1 + 366 * 86400000),
   (1, jan1 + 274 * 86400000, jan1 + 305 * 86400000),
   (1, jan1 + 305 * 86400000, jan1 + 335 * 86400000),
   (1, jan1 + 335 * 86400000, jan1 + 366 * 86400000)]

/-- A callback that always returns a falsy value (no descent). -/
def cbFalsy : Callback Unit := fun _ _ => ((), .ret false)

/-- A callback that always throws. -/
def cbThrow : Callback Unit := fun _ _ => ((), .thrown)

/-! Properties of the construction loop. -/

theorem buildSegs_not_lt {u : IntervalUnit} {endT cur : Int} (f : Nat)
    (h : ¬ cur < endT) : buildSegs u endT f cur = ([], cur) := by
  cases f <;> simp [buildSegs, h]

theorem buildSegs_nil_final {u : IntervalUnit} {endT : Int} :
    ∀ (f : Nat) (cur : Int), (buildSegs u endT f cur).1 = [] →
      (buildSegs u endT f cur).2 = cur := by
  intro f cur h
  cases f with
  | zero => rfl
  | succ f =>
    by_cases hlt : cur < endT
    · simp [buildSegs, hlt] at h
    · rw [buildSegs_not_lt _ hlt]

theorem buildSegs_mem_lt {u : IntervalUnit} {endT : Int} :
    ∀ (f : Nat) (cur x : Int), x ∈ (buildSegs u endT f cur).1 → x < endT := by
  intro f
  induction f with
  | zero => intro cur x h; simp [buildSegs] at h
  | succ f ih =>
    intro cur x h
    by_cases hlt : cur < endT
    · simp only [buildSegs, if_pos hlt, List.mem_cons] at h
      rcases h with h | h
      · omega
      · exact ih _ _ h
    · rw [buildSegs_not_lt _ hlt] at h
      simp at h

theorem buildSegs_head {u : IntervalUnit} {endT cur : Int} (f : Nat)
    (h : cur < endT) :
    (buildSegs u endT (f + 1) cur).1.head? = some cur := by
  simp [buildSegs, h]

theorem buildSegs_chain {u : IntervalUnit} {endT : Int} :
    ∀ (f : Nat) (cur : Int), List.Chain' (· < ·) (buildSegs u endT f cur).1 := by
  intro f
  induction f with
  | zero => intro cur; simp [buildSegs]
  | succ f ih =>
    intro cur
    by_cases hlt : cur < endT
    · simp only [buildSegs, if_pos hlt]
      refine List.chain'_cons'.mpr ⟨?_, ih _⟩
      intro y hy
      cases f with
      | zero => simp [buildSegs] at hy
      | succ f2 =>
        by_cases h2 : advance u cur < endT
        · rw [buildSegs_head f2 h2] at hy
          simp at hy
          rw [← hy]
          exact advance_gt u cur
        · rw [buildSegs_not_lt _ h2] at hy
          simp at hy
    · rw [buildSegs_not_lt _ hlt]
      simp

theorem buildSegs_final_ge {u : IntervalUnit} {endT : Int} :
    ∀ (f : Nat) (cur : Int), (endT - cur).toNat ≤ f →
      endT ≤ (buildSegs u endT f cur).2 := by
  intro f
  induction f with
  | zero =>
    intro cur h
    rw [buildSegs]
    omega
  | succ f ih =>
    intro cur h
    by_cases hlt : cur < endT
    · simp only [buildSegs, if_pos hlt]
      refine ih _ ?_
      have := advance_gt u cur
      omega
    · rw [buildSegs_not_lt _ hlt]
      omega

theorem buildSegs_final_adv {u : IntervalUnit} {endT : Int} :
    ∀ (f : Nat) (cur x : Int), (buildSegs u endT f cur).1.getLast? = some x →
      (buildSegs u endT f cur).2 = advance u x := by
  intro f
  induction f with
  | zero => intro cur x h; simp [buildSegs] at h
  | succ f ih =>
    intro cur x h
    by_cases hlt : cur < endT
    · simp only [buildSegs, if_pos hlt] at h ⊢
      rcases hl : (buildSegs u endT f (advance u cur)).1 with _ | ⟨y, ys⟩
      · rw [hl] at h
        simp at h
        rw [buildSegs_nil_final f _ hl, ← h]
      · rw [hl] at h
        rw [List.getLast?_cons_cons] at h
        rw [← hl] at h
        exact ih _ _ h
    · rw [buildSegs_not_lt _ hlt] at h
      simp at h

theorem iterAdv_ge (u : IntervalUnit) :
    ∀ (n : Nat) (c : Int), c + n ≤ iterAdv u n c := by
  intro n
  induction n with
  | zero => intro c; simp [iterAdv]
  | succ n ih =>
    intro c
    have h1 := advance_gt u c
    have h2 := ih (advance u c)
    rw [iterAdv]
    omega

theorem buildSegs_final_iter {u : IntervalUnit} {endT : Int} :
    ∀ (f : Nat) (cur : Int), ∃ n, (buildSegs u endT f cur).2 = iterAdv u n cur := by
  intro f
  induction f with
  | zero => intro cur; exact ⟨0, rfl⟩
  | succ f ih =>
    intro cur
    by_cases hlt : cur < endT
    · simp only [buildSegs, if_pos hlt]
      rcases ih (advance u cur) with ⟨n, hn⟩
      exact ⟨n + 1, hn⟩
    · rw [buildSegs_not_lt _ hlt]
      exact ⟨0, rfl⟩

theorem buildSegs_hits {u : IntervalUnit} {endT : Int} :
    ∀ (n : Nat) (cur : Int) (f : Nat), (endT - cur).toNat ≤ f →
      iterAdv u n cur = endT → (buildSegs u endT f cur).2 = endT := by
  intro n
  induction n with
  | zero =>
    intro cur f _ hit
    rw [iterAdv] at hit
    rw [buildSegs_not_lt f (by omega)]
    exact hit
  | succ n ih =>
    intro cur f hf hit
    by_cases hlt : cur < endT
    · cases f with
      | zero => omega
      | succ f =>
        simp only [buildSegs, if_pos hlt]
        refine ih _ _ ?_ hit
        have := advance_gt u cur
        omega
    · exfalso
      have h1 := iterAdv_ge u (n + 1) cur
      omega

/-- `isEquipartition` characterisation: the final cursor hits `endT` exactly
when some number of whole-unit steps from the start lands on `endT`. -/
theorem finalCursor_eq_iff (s endT : Int) (u : IntervalUnit) :
    finalCursor s endT u = endT ↔ ∃ n, iterAdv u n s = endT := by
  constructor
  · intro h
    rcases buildSegs_final_iter (endT - s).toNat s with ⟨n, hn⟩
    exact ⟨n, by rw [← hn]; exact h⟩
  · intro ⟨n, hn⟩
    exact buildSegs_hits n s _ (le_refl _) hn

/-! Properties of the pairwise iteration. -/

theorem adjacentPairs_fst : ∀ l : List Int,
    (adjacentPairs l).map Prod.fst = l.dropLast := by
  intro l
  induction l with
  | nil => rfl
  | cons x xs ih =>
    cases xs with
    | nil => rfl
    | cons y rest =>
      simp only [adjacentPairs, List.map_cons] at ih ⊢
      rw [ih]
      rfl

theorem adjacentPairs_snd : ∀ l : List Int,
    (adjacentPairs l).map Prod.snd = l.tail := by
  intro l
  induction l with
  | nil => rfl
  | cons x xs ih =>
    cases xs with
    | nil => rfl
    | cons y rest =>
      simp only [adjacentPairs, List.map_cons] at ih ⊢
      rw [ih]
      rfl

theorem adjacentPairs_length : ∀ l : List Int,
    (adjacentPairs l).length = l.length - 1 := by
  intro l
  induction l with
  | nil => rfl
  | cons x xs ih =>
    cases xs with
    | nil => rfl
    | cons y rest =>
      simp only [adjacentPairs, List.length_cons] at ih ⊢
      omega

/-- The tiling property: in the pairwise iteration each pair's end is the
next pair's start. -/
theorem adjacentPairs_chain : ∀ l : List Int,
    List.Chain' (fun p q => p.2 = q.1) (adjacentPairs l) := by
  intro l
  induction l with
  | nil => simp [adjacentPairs]
  | cons x xs ih =>
    cases xs with
    | nil => simp [adjacentPairs]
    | cons y rest =>
      simp only [adjacentPairs]
      refine List.chain'_cons'.mpr ⟨?_, ?_⟩
      · intro q hq
        cases rest with
        | nil => simp [adjacentPairs] at hq
        | cons z zs =>
          simp only [adjacentPairs, List.head?_cons] at hq
          simp at hq
          rw [← hq]
      · exact ih

/-! Shape of a successful construction. -/

theorem construct_ok_elim {a b : JSVal} {istr : String} {iv : IntervalSet}
    (hc : construct a b istr = .ok iv) :
    truthy a = true ∧ truthy b = true ∧
      ∃ s endT u, toInstant a = some s ∧ toInstant b = some endT ∧ s < endT ∧
        unitFromString istr = some u ∧ iv = mkSet s endT u := by
  unfold construct at hc
  by_cases h1 : truthy a = false ∨ truthy b = false
  · rw [if_pos h1] at hc; exact absurd hc (by simp)
  · rw [if_neg h1] at hc
    push_neg at h1
    cases hta : toInstant a with
    | none => simp only [hta] at hc; exact absurd hc (by simp)
    | some s =>
      simp only [hta] at hc
      cases htb : toInstant b with
      | none => simp only [htb] at hc; exact absurd hc (by simp)
      | some endT =>
        simp only [htb] at hc
        by_cases h2 : endT ≤ s
        · rw [if_pos h2] at hc; exact absurd hc (by simp)
        · rw [if_neg h2] at hc
          cases hun : unitFromString istr with
          | none => simp only [hun] at hc; exact absurd hc (by simp)
          | some u =>
            simp only [hun, Except.ok.injEq] at hc
            refine ⟨by simpa using h1.1, by simpa using h1.2,
              s, endT, u, rfl, rfl, by omega, rfl, hc.symm⟩

theorem construct_ok_intro {a b : JSVal} {istr : String} {s endT : Int}
    {u : IntervalUnit} (h1 : truthy a = true) (h2 : truthy b = true)
    (hta : toInstant a = some s) (htb : toInstant b = some endT)
    (hlt : s < endT) (hu : unitFromString istr = some u) :
    construct a b istr = .ok (mkSet s endT u) := by
  unfold construct
  rw [if_neg (by simp [h1, h2])]
  simp only [hta, htb, hu]
  rw [if_neg (by omega)]

theorem buildSegsList_head (u : IntervalUnit) {s endT : Int} (hlt : s < endT) :
    (buildSegs u endT (endT - s).toNat s).1.head? = some s := by
  have hf : (endT - s).toNat = ((endT - s).toNat - 1) + 1 := by omega
  rw [hf]
  exact buildSegs_head _ hlt

theorem buildSegsList_ne_nil (u : IntervalUnit) {s endT : Int} (hlt : s < endT) :
    (buildSegs u endT (endT - s).toNat s).1 ≠ [] := by
  intro h
  have hh := buildSegsList_head u hlt
  rw [h] at hh
  simp at hh

/-! Invariants of the traversal. -/

theorem visitOne_spec {σ : Type} (cb : Callback σ)
    (child : IntervalUnit → Int → Int → VState σ → VState σ × List VisitEvent)
    (hc : ChildSpec child) (u : IntervalUnit) (s e : Int) (vs : VState σ) :
    ∃ b evs,
      (visitOne cb child u s e vs).2 = ⟨vs.depth, s, e, u, b⟩ :: evs ∧
      (∀ ev ∈ evs, vs.depth < ev.depth) ∧
      (visitOne cb child u s e vs).1.depth = vs.depth ∧
      (visitOne cb child u s e vs).1.subIntervals = vs.subIntervals ∧
      (b = false → evs = []) := by
  rcases hcb : cb vs ⟨s, e, u⟩ with ⟨w, r⟩
  cases r with
  | thrown =>
    refine ⟨false, [], ?_⟩
    simp [visitOne, hcb]
  | ret descend =>
    cases hlu : lowerInterval u with
    | none =>
      refine ⟨true, [], ?_⟩
      simp [visitOne, hcb, hlu]
    | some lu =>
      simp only [visitOne, hcb, hlu]
      by_cases hcond : descend = true ∧ vs.subIntervals = true
      · rw [if_pos hcond]
        have h3 : (child lu s e ⟨vs.depth + 1, vs.subIntervals, w⟩).1.depth =
            vs.depth + 1 := hc lu s e ⟨vs.depth + 1, vs.subIntervals, w⟩ |>.1
        have h4 : (child lu s e ⟨vs.depth + 1, vs.subIntervals, w⟩).1.subIntervals =
            vs.subIntervals := hc lu s e ⟨vs.depth + 1, vs.subIntervals, w⟩ |>.2.1
        have h5 : ∀ ev ∈ (child lu s e ⟨vs.depth + 1, vs.subIntervals, w⟩).2,
            vs.depth + 1 ≤ ev.depth :=
          hc lu s e ⟨vs.depth + 1, vs.subIntervals, w⟩ |>.2.2
        refine ⟨true, (child lu s e ⟨vs.depth + 1, vs.subIntervals, w⟩).2,
          rfl, ?_, ?_, ?_, by simp⟩
        · intro ev hev
          have := h5 ev hev
          omega
        · show (child lu s e ⟨vs.depth + 1, vs.subIntervals, w⟩).1.depth - 1 =
            vs.depth
          omega
        · exact h4
      · rw [if_neg hcond]
        exact ⟨true, [], rfl, by simp, rfl, rfl, by simp⟩

theorem processLevel_inv {σ : Type} (cb : Callback σ)
    (child : IntervalUnit → Int → Int → VState σ → VState σ × List VisitEvent)
    (hc : ChildSpec child) (u : IntervalUnit) :
    ∀ (pairs : List (Int × Int)) (vs : VState σ),
      (processLevel cb child u pairs vs).1.depth = vs.depth ∧
      (processLevel cb child u pairs vs).1.subIntervals = vs.subIntervals ∧
      ∀ ev ∈ (processLevel cb child u pairs vs).2, vs.depth ≤ ev.depth := by
  intro pairs
  induction pairs with
  | nil => intro vs; simp [processLevel]
  | cons p rest ih =>
    intro vs
    obtain ⟨s, e⟩ := p
    obtain ⟨b, evs, h2, hdeep, hd, hsub, _⟩ := visitOne_spec cb child hc u s e vs
    have hih := ih (visitOne cb child u s e vs).1
    simp only [processLevel]
    refine ⟨by rw [hih.1, hd], by rw [hih.2.1, hsub], ?_⟩
    intro ev hev
    rw [List.mem_append, h2] at hev
    rcases hev with hev | hev
    · rcases List.mem_cons.mp hev with hev | hev
      · rw [hev]
      · exact le_of_lt (hdeep ev hev)
    · have := hih.2.2 ev hev
      omega

theorem processLevel_filter {σ : Type} (cb : Callback σ)
    (child : IntervalUnit → Int → Int → VState σ → VState σ × List VisitEvent)
    (hc : ChildSpec child) (u : IntervalUnit) :
    ∀ (pairs : List (Int × Int)) (vs : VState σ),
      (((processLevel cb child u pairs vs).2.filter
          fun ev => ev.depth == vs.depth).map
        fun ev => (ev.startT, ev.endT)) = pairs := by
  intro pairs
  induction pairs with
  | nil => intro vs; simp [processLevel]
  | cons p rest ih =>
    intro vs
    obtain ⟨s, e⟩ := p
    obtain ⟨b, evs, h2, hdeep, hd, _, _⟩ := visitOne_spec cb child hc u s e vs
    have hih := ih (visitOne cb child u s e vs).1
    rw [hd] at hih
    simp only [processLevel, List.filter_append, List.map_append, h2,
      List.filter_cons]
    have hkeep : (vs.depth == vs.depth) = true := by simp
    rw [hkeep]
    have hdrop : evs.filter (fun ev => ev.depth == vs.depth) = [] := by
      rw [List.filter_eq_nil_iff]
      intro ev hev
      have := hdeep ev hev
      simp only [beq_iff_eq]
      omega
    simp only [if_pos rfl, hdrop, List.map_cons, List.map_nil, hih]
    rfl

theorem acceptLevel_succ (cb : Callback σ) (f : Nat) (u : IntervalUnit)
    (pairs : List (Int × Int)) (vs : VState σ) :
    acceptLevel cb (f + 1) u pairs vs =
      processLevel cb (acceptChild cb f) u pairs vs := by
  rfl

theorem acceptLevel_inv (cb : Callback σ) :
    ∀ (f : Nat) (u : IntervalUnit) (pairs : List (Int × Int)) (vs : VState σ),
      (acceptLevel cb f u pairs vs).1.depth = vs.depth ∧
      (acceptLevel cb f u pairs vs).1.subIntervals = vs.subIntervals ∧
      ∀ ev ∈ (acceptLevel cb f u pairs vs).2, vs.depth ≤ ev.depth := by
  intro f
  induction f with
  | zero => intro u pairs vs; simp [acceptLevel]
  | succ f ih =>
    intro u pairs vs
    have hcs : ChildSpec (acceptChild cb f) := by
      intro lu s e vs'
      unfold acceptChild
      cases construct (.dateObj (some s)) (.dateObj (some e)) (unitName lu) with
      | ok child => exact ih lu (adjacentPairs child.segments) vs'
      | error err => simp
    rw [acceptLevel_succ]
    exact processLevel_inv cb (acceptChild cb f) hcs u pairs vs

theorem acceptChild_spec (cb : Callback σ) (f : Nat) :
    ChildSpec (acceptChild cb f) := by
  intro lu s e vs
  unfold acceptChild
  cases construct (.dateObj (some s)) (.dateObj (some e)) (unitName lu) with
  | ok child => exact acceptLevel_inv cb f lu (adjacentPairs child.segments) vs
  | error err => simp

theorem acceptLevel_filter (cb : Callback σ) (f : Nat) (u : IntervalUnit)
    (pairs : List (Int × Int)) (vs : VState σ) :
    (((acceptLevel cb (f + 1) u pairs vs).2.filter
        fun ev => ev.depth == vs.depth).map
      fun ev => (ev.startT, ev.endT)) = pairs := by
  rw [acceptLevel_succ]
  exact processLevel_filter cb (acceptChild cb f) (acceptChild_spec cb f) u pairs vs

/-! The traversal fuel is exact: `lowerInterval` strictly decreases the
unit rank, so above `unitRank u + 1` the result does not depend on the
fuel, i.e. the fuel-indexed recursion is the recursion of `accept`. -/

theorem unitRank_lower_lt (u lu : IntervalUnit) (h : lowerInterval u = some lu) :
    unitRank lu < unitRank u := by
  cases u <;> cases lu <;> simp_all [lowerInterval, unitRank]

theorem visitOne_child_congr {σ : Type} (cb : Callback σ) (child1 child2 :
      IntervalUnit → Int → Int → VState σ → VState σ × List VisitEvent)
    (u : IntervalUnit)
    (hc : ∀ lu, lowerInterval u = some lu →
      ∀ s e vs, child1 lu s e vs = child2 lu s e vs)
    (s e : Int) (vs : VState σ) :
    visitOne cb child1 u s e vs = visitOne cb child2 u s e vs := by
  rcases hcb : cb vs ⟨s, e, u⟩ with ⟨w, r⟩
  cases r with
  | thrown => simp [visitOne, hcb]
  | ret descend =>
    cases hlu : lowerInterval u with
    | none => simp [visitOne, hcb, hlu]
    | some lu =>
      simp only [visitOne, hcb, hlu]
      by_cases hcond : descend = true ∧ vs.subIntervals = true
      · rw [if_pos hcond, if_pos hcond, hc lu hlu]
      · rw [if_neg hcond, if_neg hcond]

theorem processLevel_child_congr {σ : Type} (cb : Callback σ) (child1 child2 :
      IntervalUnit → Int → Int → VState σ → VState σ × List VisitEvent)
    (u : IntervalUnit)
    (hc : ∀ lu, lowerInterval u = some lu →
      ∀ s e vs, child1 lu s e vs = child2 lu s e vs) :
    ∀ (pairs : List (Int × Int)) (vs : VState σ),
      processLevel cb child1 u pairs vs = processLevel cb child2 u pairs vs := by
  intro pairs
  induction pairs with
  | nil => intro vs; rfl
  | cons p rest ih =>
    intro vs
    obtain ⟨s, e⟩ := p
    simp only [processLevel]
    rw [visitOne_child_congr cb child1 child2 u hc s e vs, ih]

theorem acceptLevel_fuel_stable (cb : Callback σ) :
    ∀ (n : Nat) (u : IntervalUnit), unitRank u ≤ n →
      ∀ (f g : Nat), unitRank u + 1 ≤ f → unitRank u + 1 ≤ g →
        ∀ (pairs : List (Int × Int)) (vs : VState σ),
          acceptLevel cb f u pairs vs = acceptLevel cb g u pairs vs := by
  intro n
  induction n with
  | zero =>
    intro u hn f g hf hg pairs vs
    obtain ⟨f1, rfl⟩ : ∃ f1, f = f1 + 1 := ⟨f - 1, by omega⟩
    obtain ⟨g1, rfl⟩ : ∃ g1, g = g1 + 1 := ⟨g - 1, by omega⟩
    rw [acceptLevel_succ, acceptLevel_succ]
    apply processLevel_child_congr
    intro lu hlu s e vs'
    have := unitRank_lower_lt u lu hlu
    omega
  | succ n ih =>
    intro u hn f g hf hg pairs vs
    obtain ⟨f1, rfl⟩ : ∃ f1, f = f1 + 1 := ⟨f - 1, by omega⟩
    obtain ⟨g1, rfl⟩ : ∃ g1, g = g1 + 1 := ⟨g - 1, by omega⟩
    rw [acceptLevel_succ, acceptLevel_succ]
    apply processLevel_child_congr
    intro lu hlu s e vs'
    have hlt := unitRank_lower_lt u lu hlu
    unfold acceptChild
    cases construct (.dateObj (some s)) (.dateObj (some e)) (unitName lu) with
    | ok c =>
      exact ih lu (by omega) f1 g1 (by omega) (by omega)
        (adjacentPairs c.segments) vs'
    | error err => rfl

/-! The claims. -/

/-- C1: for every valid construction (start < end, recognised unit), the
boundary sequence starts at `start`, ends at `end`, is strictly increasing,
the reported `length` is `boundaries.length - 1 ≥ 1`, and iterating yields
exactly `length` adjacent-boundary pairs that tile `[start, end)` with no
gaps or overlaps: the pair starts are the boundaries without the last, the
pair ends are the boundaries without the first, each pair's end equals the
next pair's start, the first pair starts at `start` and the last pair ends
at `end`. -/
theorem C1_boundary_sequence {a b : JSVal} {istr : String} {s endT : Int}
    {iv : IntervalSet}
    (hs : toInstant a = some s) (he : toInstant b = some endT)
    (hc : construct a b istr = .ok iv) :
    iv.segments.head? = some s ∧
    iv.segments.getLast? = some endT ∧
    List.Chain' (· < ·) iv.segments ∧
    iv.length = iv.segments.length - 1 ∧
    1 ≤ iv.length ∧
    (intervalsOf iv).length = iv.length ∧
    ((intervalsOf iv).map fun i => i.startT) = iv.segments.dropLast ∧
    ((intervalsOf iv).map fun i => i.endT) = iv.segments.tail ∧
    List.Chain' (fun p q => p.endT = q.startT) (intervalsOf iv) ∧
    ((intervalsOf iv).head?.map fun i => i.startT) = some s ∧
    ((intervalsOf iv).getLast?.map fun i => i.endT) = some endT := by
  obtain ⟨-, -, s', endT', u, hs', he', hlt, -, hiv⟩ := construct_ok_elim hc
  rw [hs, Option.some.injEq] at hs'
  rw [he, Option.some.injEq] at he'
  subst hs'
  subst he'
  subst hiv
  have hlne := buildSegsList_ne_nil u hlt
  have hhead := buildSegsList_head u hlt
  have hchain := @buildSegs_chain u endT (endT - s).toNat s
  have hsegs : (mkSet s endT u).segments =
      (buildSegs u endT (endT - s).toNat s).1 ++ [endT] := rfl
  have hfst : ((intervalsOf (mkSet s endT u)).map fun i => i.startT) =
      (mkSet s endT u).segments.dropLast := by
    rw [intervalsOf, List.map_map]
    have hcomp : ((fun i : DateRangeInterval => i.startT) ∘
        fun p : Int × Int => (⟨p.1, p.2, (mkSet s endT u).unit⟩ :
          DateRangeInterval)) = Prod.fst := by
      funext p
      rfl
    rw [hcomp, adjacentPairs_fst]
  have hsnd : ((intervalsOf (mkSet s endT u)).map fun i => i.endT) =
      (mkSet s endT u).segments.tail := by
    rw [intervalsOf, List.map_map]
    have hcomp : ((fun i : DateRangeInterval => i.endT) ∘
        fun p : Int × Int => (⟨p.1, p.2, (mkSet s endT u).unit⟩ :
          DateRangeInterval)) = Prod.snd := by
      funext p
      rfl
    rw [hcomp, adjacentPairs_snd]
  refine ⟨?_, ?_, ?_, rfl, ?_, ?_, hfst, hsnd, ?_, ?_, ?_⟩
  · rw [hsegs, List.head?_append_of_ne_nil _ hlne, hhead]
  · rw [hsegs]
    exact List.getLast?_concat _
  · rw [hsegs]
    refine List.chain'_append.mpr ⟨hchain, by simp, ?_⟩
    intro x hx y hy
    simp only [List.head?_cons, Option.mem_def, Option.some.injEq] at hy
    subst hy
    obtain ⟨hne, hxeq⟩ := List.mem_getLast?_eq_getLast hx
    rw [hxeq]
    exact buildSegs_mem_lt _ _ _ (List.getLast_mem hne)
  · have hlpos : 0 < (buildSegs u endT (endT - s).toNat s).1.length :=
      List.length_pos.mpr hlne
    show 1 ≤ (mkSet s endT u).segments.length - 1
    rw [hsegs, List.length_append]
    simp
    omega
  · show ((adjacentPairs (mkSet s endT u).segments).map _).length =
      (mkSet s endT u).segments.length - 1
    rw [List.length_map, adjacentPairs_length]
  · rw [intervalsOf, List.chain'_map]
    exact adjacentPairs_chain _
  · have h10 := congrArg List.head? hfst
    rw [List.head?_map, hsegs, List.dropLast_concat, hhead] at h10
    exact h10
  · have h11 := congrArg List.getLast? hsnd
    rw [List.getLast?_map] at h11
    obtain ⟨x, l2, hxl⟩ := List.exists_cons_of_ne_nil hlne
    rw [hsegs, hxl] at h11
    simp only [List.cons_append, List.tail_cons] at h11
    rw [List.getLast?_concat] at h11
    exact h11

/-- C1 witness: the construction over four days at unit `day`. -/
theorem C1_boundary_sequence_witness :
    (mkSet 0 345600000 IntervalUnit.day).segments.head? = some 0 ∧
    (mkSet 0 345600000 IntervalUnit.day).segments.getLast? = some 345600000 ∧
    List.Chain' (· < ·) (mkSet 0 345600000 IntervalUnit.day).segments ∧
    (mkSet 0 345600000 IntervalUnit.day).length =
      (mkSet 0 345600000 IntervalUnit.day).segments.length - 1 ∧
    1 ≤ (mkSet 0 345600000 IntervalUnit.day).length ∧
    (intervalsOf (mkSet 0 345600000 IntervalUnit.day)).length =
      (mkSet 0 345600000 IntervalUnit.day).length ∧
    ((intervalsOf (mkSet 0 345600000 IntervalUnit.day)).map fun i => i.startT) =
      (mkSet 0 345600000 IntervalUnit.day).segments.dropLast ∧
    ((intervalsOf (mkSet 0 345600000 IntervalUnit.day)).map fun i => i.endT) =
      (mkSet 0 345600000 IntervalUnit.day).segments.tail ∧
    List.Chain' (fun p q => p.endT = q.startT)
      (intervalsOf (mkSet 0 345600000 IntervalUnit.day)) ∧
    ((intervalsOf (mkSet 0 345600000 IntervalUnit.day)).head?.map
      fun i => i.startT) = some 0 ∧
    ((intervalsOf (mkSet 0 345600000 IntervalUnit.day)).getLast?.map
      fun i => i.endT) = some 345600000 :=
  @C1_boundary_sequence (.dateObj (some 0)) (.dateObj (some 345600000)) "day"
    0 345600000 (mkSet 0 345600000 IntervalUnit.day) rfl rfl
    (@construct_ok_intro (.dateObj (some 0)) (.dateObj (some 345600000)) "day"
      0 345600000 IntervalUnit.day rfl rfl rfl rfl (by norm_num) rfl)

/-- C4: `isEquipartition` is true exactly when the cursor, advanced from
`start` by whole units, lands exactly on `end` — equivalently, some number
of whole-unit advances from `start` reaches `end` exactly, equivalently the
gap from the second-to-last boundary to `end` is one full unit advance —
and false otherwise. -/
theorem C4_equipartition {a b : JSVal} {istr : String} {s endT : Int}
    {iv : IntervalSet}
    (hs : toInstant a = some s) (he : toInstant b = some endT)
    (hc : construct a b istr = .ok iv) :
    (iv.isEquipartition = true ↔ ∃ n, iterAdv iv.unit n s = endT) ∧
    (iv.isEquipartition = true ↔
      ∃ x, iv.segments.dropLast.getLast? = some x ∧ advance iv.unit x = endT) := by
  obtain ⟨-, -, s', endT', u, hs', he', hlt, -, hiv⟩ := construct_ok_elim hc
  rw [hs, Option.some.injEq] at hs'
  rw [he, Option.some.injEq] at he'
  subst hs'
  subst he'
  subst hiv
  have hlne := buildSegsList_ne_nil u hlt
  have hequi : (mkSet s endT u).isEquipartition =
      decide (finalCursor s endT u = endT) := rfl
  have hdrop : (mkSet s endT u).segments.dropLast =
      (buildSegs u endT (endT - s).toNat s).1 := List.dropLast_concat
  have hunit : (mkSet s endT u).unit = u := rfl
  constructor
  · rw [hequi, hunit, decide_eq_true_eq]
    exact finalCursor_eq_iff s endT u
  · rw [hequi, hunit, hdrop, decide_eq_true_eq]
    constructor
    · intro hfin
      refine ⟨(buildSegs u endT (endT - s).toNat s).1.getLast hlne,
        List.getLast?_eq_getLast _ hlne, ?_⟩
      rw [← buildSegs_final_adv _ _ _ (List.getLast?_eq_getLast _ hlne)]
      exact hfin
    · intro ⟨x, hx, hadv⟩
      rw [show finalCursor s endT u = advance u x from
        buildSegs_final_adv _ _ _ hx]
      exact hadv

/-- C4 witness: two full days is an equipartition at unit `day`; the
second-to-last boundary advances exactly onto the end. -/
theorem C4_equipartition_witness :
    ((mkSet 0 172800000 IntervalUnit.day).isEquipartition = true ↔
      ∃ n, iterAdv (mkSet 0 172800000 IntervalUnit.day).unit n 0 = 172800000) ∧
    ((mkSet 0 172800000 IntervalUnit.day).isEquipartition = true ↔
      ∃ x, (mkSet 0 172800000 IntervalUnit.day).segments.dropLast.getLast? =
          some x ∧
        advance (mkSet 0 172800000 IntervalUnit.day).unit x = 172800000) :=
  @C4_equipartition (.dateObj (some 0)) (.dateObj (some 172800000)) "day"
    0 172800000 (mkSet 0 172800000 IntervalUnit.day) rfl rfl
    (@construct_ok_intro (.dateObj (some 0)) (.dateObj (some 172800000)) "day"
      0 172800000 IntervalUnit.day rfl rfl rfl rfl (by norm_num) rfl)

/-- C6 counterexample: with an unrecognised unit `"bogus"`, a missing
(`null`) start still fails with the missing-input error, and equal start
and end dates still fail with the ordering error — not with `InvalidUnit` —
because the start/end validations run before the unit lookup. -/
theorem C6_counterexample :
    construct .nullV (.dateObj (some 86400000)) "bogus" =
      .error .missingInput ∧
    construct (.dateObj (some 86400000)) (.dateObj (some 86400000)) "bogus" =
      .error .startNotBeforeEnd ∧
    ConstructError.missingInput ≠ ConstructError.invalidUnit ∧
    ConstructError.startNotBeforeEnd ≠ ConstructError.invalidUnit := by
  refine ⟨rfl, rfl, by decide, by decide⟩

/-- C6 as amended: when the start and end arguments pass the input
validations (both truthy, both parseable, start before end), an
unrecognised unit fails construction with the invalid-unit error; with
invalid start/end the earlier input error is raised instead. -/
theorem C6_invalid_unit {a b : JSVal} {istr : String} {s endT : Int}
    (h1 : truthy a = true) (h2 : truthy b = true)
    (hta : toInstant a = some s) (htb : toInstant b = some endT)
    (hlt : s < endT) (hu : unitFromString istr = none) :
    construct a b istr = .error .invalidUnit := by
  unfold construct
  rw [if_neg (by simp [h1, h2])]
  simp only [hta, htb, hu]
  rw [if_neg (by omega)]

/-- C6 witness: valid dates one day apart, unit `"bogus"`. -/
theorem C6_invalid_unit_witness :
    construct (.dateObj (some 0)) (.dateObj (some 86400000)) "bogus" =
      .error .invalidUnit :=
  C6_invalid_unit rfl rfl rfl rfl (by norm_num) rfl

/-- C7: whenever start or end is missing (falsy) or unparseable, or
start ≥ end, construction fails synchronously with one of the
`InvalidInput` errors and no `IntervalSet` is produced. -/
theorem C7_invalid_input (a b : JSVal) (istr : String)
    (h : truthy a = false ∨ truthy b = false ∨ toInstant a = none ∨
      toInstant b = none ∨
      ∃ s endT, toInstant a = some s ∧ toInstant b = some endT ∧ endT ≤ s) :
    ∃ err, construct a b istr = .error err ∧ isInvalidInput err = true := by
  unfold construct
  by_cases h1 : truthy a = false ∨ truthy b = false
  · rw [if_pos h1]
    exact ⟨.missingInput, rfl, rfl⟩
  · rw [if_neg h1]
    push_neg at h1
    cases hta : toInstant a with
    | none => exact ⟨.invalidStartDate, rfl, rfl⟩
    | some s =>
      cases htb : toInstant b with
      | none => exact ⟨.invalidEndDate, rfl, rfl⟩
      | some endT =>
        by_cases h2 : endT ≤ s
        · exact ⟨.startNotBeforeEnd, by simp [h2], rfl⟩
        · exfalso
          rcases h with h | h | h | h | ⟨s2, e2, h3, h4, h5⟩
          · exact h1.1 h
          · exact h1.2 h
          · rw [hta] at h; exact Option.some_ne_none s h
          · rw [htb] at h; exact Option.some_ne_none endT h
          · rw [hta, Option.some.injEq] at h3
            rw [htb, Option.some.injEq] at h4
            omega

/-- C7 witness: a missing (`undefined`) start date. -/
theorem C7_invalid_input_witness :
    ∃ err, construct .undef (.dateObj (some 0)) "day" = .error err ∧
      isInvalidInput err = true :=
  C7_invalid_input .undef (.dateObj (some 0)) "day" (Or.inl rfl)

/-- C8: `accept` rejects every argument that is not a genuine Visitor
instance (duck-typed objects, bare functions and primitives included) with
the invalid-visitor error, and Visitor construction rejects every
non-invocable callback; a function callback yields a visitor initialised
with `depth = 0` and `subIntervals = false`. -/
theorem C8_visitor_guard :
    (∀ (σ : Type) (iv : IntervalSet) (arg : AcceptArg σ),
      arg.isGenuine = false → acceptJS iv arg = .error .invalidVisitor) ∧
    (∀ (σ : Type) (v : JSVal) (init : σ),
      mkVisitor (JSCallable.notFunc v : JSCallable σ) init =
        .error .invalidVisitor) ∧
    (∀ (σ : Type) (f : Callback σ) (init : σ),
      mkVisitor (.func f) init =
        .ok { state := { depth := 0, subIntervals := false, user := init },
              visit := f }) := by
  refine ⟨?_, ?_, ?_⟩
  · intro σ iv arg h
    cases arg with
    | genuine v => simp [AcceptArg.isGenuine] at h
    | plainObject a b c => rfl
    | bareFunction => rfl
    | primitive v => rfl
  · intro σ v init
    rfl
  · intro σ f init
    rfl

/-- C8 witness: a bare function is rejected by `accept`, and a primitive is
rejected by the Visitor constructor. -/
theorem C8_visitor_guard_witness :
    acceptJS (mkSet 0 1000 IntervalUnit.second)
        (AcceptArg.bareFunction : AcceptArg Unit) =
      .error .invalidVisitor ∧
    mkVisitor (JSCallable.notFunc (.num 3) : JSCallable Unit) () =
      .error .invalidVisitor :=
  ⟨C8_visitor_guard.1 Unit (mkSet 0 1000 IntervalUnit.second)
      AcceptArg.bareFunction rfl,
    C8_visitor_guard.2.1 Unit (.num 3) ()⟩

/-- Writes through `writeProp` never change a table whose properties are
all non-writable. -/
theorem applyWrites_readonly {π : Type} [DecidableEq π] :
    ∀ (ws : List (π × PropVal)) (tbl : π → PropVal × Bool),
      (∀ n, (tbl n).2 = false) → ∀ m, applyWrites tbl ws m = tbl m := by
  intro ws
  induction ws with
  | nil => intro tbl h m; rfl
  | cons p rest ih =>
    intro tbl h m
    obtain ⟨n, v⟩ := p
    have hw : writeProp tbl n v = tbl := by
      funext m2
      unfold writeProp
      rw [if_neg]
      rintro ⟨-, h2⟩
      rw [h n] at h2
      exact Bool.false_ne_true h2
    simp only [applyWrites]
    rw [hw]
    exact ih tbl h m

/-- C9: every property that `Object.defineProperties` installs on the set
and on a yielded interval is non-writable, so any sequence of assignment
attempts leaves every accessor (start, end, interval, length,
isEquipartition) unchanged, and the start/end accessors always report the
construction-time instants. -/
theorem C9_immutable :
    (∀ (iv : IntervalSet) (n : SetProp), (propTable iv n).2 = false) ∧
    (∀ (iv : IntervalSet) (ws : List (SetProp × PropVal)) (n : SetProp),
      applyWrites (propTable iv) ws n = propTable iv n) ∧
    (∀ (i : DateRangeInterval) (ws : List (IntProp × PropVal)) (n : IntProp),
      applyWrites (intervalPropTable i) ws n = intervalPropTable i n) ∧
    (∀ (s endT : Int) (u : IntervalUnit),
      propTable (mkSet s endT u) SetProp.startProp = (.dateV s, false) ∧
      propTable (mkSet s endT u) SetProp.endProp = (.dateV endT, false)) := by
  refine ⟨?_, ?_, ?_, ?_⟩
  · intro iv n
    cases n <;> rfl
  · intro iv ws n
    exact applyWrites_readonly ws _ (fun m => by cases m <;> rfl) n
  · intro i ws n
    exact applyWrites_readonly ws _ (fun m => by cases m <;> rfl) n
  · intro s endT u
    exact ⟨rfl, rfl⟩

/-- C10: the numeric input 0 (the epoch, a parseable instant) is falsy, so
the presence check `if(!start || !end)` rejects it with the missing-input
error even though every other validation would pass. -/
theorem C10_epoch_start (b : JSVal) (istr : String) (t : Int) (u : IntervalUnit)
    (_hb : toInstant b = some t) (_ht : 0 < t) (_htr : truthy b = true)
    (_hu : unitFromString istr = some u) :
    construct (.num 0) b istr = .error .missingInput := by
  unfold construct
  rw [if_pos (Or.inl (by decide))]

/-- C10 witness: start 0 with a valid end one day later at unit `day`. -/
theorem C10_epoch_start_witness :
    construct (.num 0) (.dateObj (some 86400000)) "day" =
      .error .missingInput :=
  C10_epoch_start (.dateObj (some 86400000)) "day" 86400000 IntervalUnit.day
    rfl (by norm_num) rfl rfl

/-- C3: a callback error during one interval's visit is caught at the point
of invocation: the visit is still recorded (as a caught error), no descent
into that interval's subtree happens, and traversal continues with the next
sibling at the same depth; every interval of a level is visited no matter
which callbacks throw, and `accept` on a genuine visitor always resolves
(never rejects). -/
theorem C3_error_isolation :
    (∀ (σ : Type) (cb : Callback σ) (f : Nat) (u : IntervalUnit) (s e : Int)
        (rest : List (Int × Int)) (vs : VState σ) (w : σ),
      cb vs ⟨s, e, u⟩ = (w, .thrown) →
      acceptLevel cb (f + 1) u ((s, e) :: rest) vs =
        ((acceptLevel cb (f + 1) u rest { vs with user := w }).1,
          ⟨vs.depth, s, e, u, false⟩ ::
            (acceptLevel cb (f + 1) u rest { vs with user := w }).2)) ∧
    (∀ (σ : Type) (cb : Callback σ) (f : Nat) (u : IntervalUnit)
        (pairs : List (Int × Int)) (vs : VState σ),
      ((acceptLevel cb (f + 1) u pairs vs).2.filter
        fun ev => ev.depth == vs.depth).length = pairs.length) ∧
    (∀ (σ : Type) (iv : IntervalSet) (v : Visitor σ),
      ∃ out, acceptJS iv (.genuine v) = .ok out) := by
  refine ⟨?_, ?_, ?_⟩
  · intro σ cb f u s e rest vs w hcb
    rw [acceptLevel_succ, acceptLevel_succ]
    simp [processLevel, visitOne, hcb]
  · intro σ cb f u pairs vs
    have h := congrArg List.length (acceptLevel_filter cb f u pairs vs)
    rw [List.length_map] at h
    exact h
  · intro σ iv v
    exact ⟨_, rfl⟩

/-- C3 witness: a callback that always throws, on a one-interval level. -/
theorem C3_error_isolation_witness :
    acceptLevel cbThrow 1 IntervalUnit.second ((0, 1000) :: [])
        ⟨0, false, ()⟩ =
      ((acceptLevel cbThrow 1 IntervalUnit.second [] ⟨0, false, ()⟩).1,
        ⟨0, 0, 1000, IntervalUnit.second, false⟩ ::
          (acceptLevel cbThrow 1 IntervalUnit.second [] ⟨0, false, ()⟩).2) :=
  C3_error_isolation.1 Unit cbThrow 0 IntervalUnit.second 0 1000 []
    ⟨0, false, ()⟩ () rfl

/-- C5: `depth` returns to its pre-descent value before the next sibling is
visited and at the end of every level (`subIntervals` is also untouched);
no visit is ever recorded above the level's depth; at each level, the
visits recorded exactly at the level's depth are exactly that level's
intervals in order (so `depth` equals the recursion depth at every visit);
and a freshly constructed visitor starts at depth 0. -/
theorem C5_depth_discipline :
    (∀ (σ : Type) (cb : Callback σ) (f : Nat) (u : IntervalUnit)
        (pairs : List (Int × Int)) (vs : VState σ),
      (acceptLevel cb f u pairs vs).1.depth = vs.depth ∧
      (acceptLevel cb f u pairs vs).1.subIntervals = vs.subIntervals) ∧
    (∀ (σ : Type) (cb : Callback σ) (f : Nat) (u : IntervalUnit)
        (pairs : List (Int × Int)) (vs : VState σ),
      ∀ ev ∈ (acceptLevel cb f u pairs vs).2, vs.depth ≤ ev.depth) ∧
    (∀ (σ : Type) (cb : Callback σ) (f : Nat) (u : IntervalUnit)
        (pairs : List (Int × Int)) (vs : VState σ),
      (((acceptLevel cb (f + 1) u pairs vs).2.filter
          fun ev => ev.depth == vs.depth).map
        fun ev => (ev.startT, ev.endT)) = pairs) ∧
    (∀ (σ : Type) (f : Callback σ) (init : σ) (vis : Visitor σ),
      mkVisitor (.func f) init = .ok vis → vis.state.depth = 0) := by
  refine ⟨?_, ?_, ?_, ?_⟩
  · intro σ cb f u pairs vs
    exact ⟨(acceptLevel_inv cb f u pairs vs).1,
      (acceptLevel_inv cb f u pairs vs).2.1⟩
  · intro σ cb f u pairs vs
    exact (acceptLevel_inv cb f u pairs vs).2.2
  · intro σ cb f u pairs vs
    exact acceptLevel_filter cb f u pairs vs
  · intro σ f init vis h
    simp only [mkVisitor, Except.ok.injEq] at h
    rw [← h]

/-- C5 witness: a one-interval level at depth 0 with a falsy callback. -/
theorem C5_depth_discipline_witness :
    (((acceptLevel cbFalsy 1 IntervalUnit.second [(0, 1000)]
          ⟨0, false, ()⟩).2.filter
        fun ev => ev.depth == (0 : Int)).map
      fun ev => (ev.startT, ev.endT)) = [(0, 1000)] :=
  C5_depth_discipline.2.2.1 Unit cbFalsy 0 IntervalUnit.second [(0, 1000)]
    ⟨0, false, ()⟩

set_option maxRecDepth 100000 in
/-- C2 counterexample: in the spec's descent scenario (2024-01-01 →
2025-01-01 at `quarter`, descent requested at depth ≤ 1, refused deeper),
the callback is invoked 382 times, not 16: the months at depth 1 request
descent too, so every day of 2024 is also visited at depth 2 (where the
visitor then refuses further descent).  The spec's count of 16 only tallies
the visits its callback chooses to record at depth ≤ 1. -/
theorem C2_counterexample :
    construct (.dateObj (some jan1)) (.dateObj (some (jan1 + 366 * 86400000)))
        "quarter" = .ok quarterSet ∧
    acceptJS quarterSet
        (.genuine { state := ⟨0, true, ([], 0)⟩, visit := cbDescend }) =
      .ok quarterRun ∧
    quarterRun.2.length = 382 ∧
    quarterRun.2.length ≠ 16 := by
  have h3 : quarterRun.2.length = 382 := by rfl
  refine ⟨rfl, rfl, h3, ?_⟩
  rw [h3]
  decide

set_option maxRecDepth 100000 in
/-- C2 as amended: traversal is pre-order and depth-first — each interval's
visit comes first, then the whole block of strictly deeper visits of its
subtree, then the next sibling from a state whose depth and subIntervals
are restored (last conjunct, for every callback and level).  In the spec's
descent scenario the 16 visits at depth ≤ 1 are exactly the 4 quarters,
each immediately followed by its 3 months, in order; the recording
callback counts those 16, while the full trace has 382 visits because each
month's days are additionally visited (and refused) at depth 2. -/
theorem C2_preorder_descent :
    ((quarterRun.2.filter fun ev => decide (ev.depth ≤ 1)).map
        fun ev => (ev.depth, ev.startT, ev.endT)) = expectedSixteen ∧
    quarterRun.2.length = 382 ∧
    quarterRun.1.user.2 = 16 ∧
    (∀ (σ : Type) (cb : Callback σ) (f : Nat) (u : IntervalUnit) (s e : Int)
        (rest : List (Int × Int)) (vs : VState σ),
      ∃ b evs vs2,
        (∀ ev ∈ evs, vs.depth < ev.depth) ∧
        vs2.depth = vs.depth ∧
        vs2.subIntervals = vs.subIntervals ∧
        acceptLevel cb (f + 1) u ((s, e) :: rest) vs =
          ((acceptLevel cb (f + 1) u rest vs2).1,
            ⟨vs.depth, s, e, u, b⟩ ::
              (evs ++ (acceptLevel cb (f + 1) u rest vs2).2)) ∧
        (b = false → evs = [])) := by
  refine ⟨by rfl, by rfl, by rfl, ?_⟩
  intro σ cb f u s e rest vs
  obtain ⟨b, evs, h2, hdeep, hd, hsub, hbf⟩ :=
    visitOne_spec cb (acceptChild cb f) (acceptChild_spec cb f) u s e vs
  refine ⟨b, evs, (visitOne cb (acceptChild cb f) u s e vs).1,
    hdeep, hd, hsub, ?_, hbf⟩
  rw [acceptLevel_succ, acceptLevel_succ]
  simp only [processLevel]
  rw [h2]
  simp

/-- C2 witness: the pre-order decomposition at a concrete one-interval
level. -/
theorem C2_preorder_descent_witness :
    ∃ b evs vs2,
      (∀ ev ∈ evs, (⟨0, false, ()⟩ : VState Unit).depth < ev.depth) ∧
      vs2.depth = (⟨0, false, ()⟩ : VState Unit).depth ∧
      vs2.subIntervals = (⟨0, false, ()⟩ : VState Unit).subIntervals ∧
      acceptLevel cbFalsy 1 IntervalUnit.second ((0, 1000) :: [])
          ⟨0, false, ()⟩ =
        ((acceptLevel cbFalsy 1 IntervalUnit.second [] vs2).1,
          ⟨(⟨0, false, ()⟩ : VState Unit).depth, 0, 1000,
              IntervalUnit.second, b⟩ ::
            (evs ++ (acceptLevel cbFalsy 1 IntervalUnit.second [] vs2).2)) ∧
      (b = false → evs = []) :=
  C2_preorder_descent.2.2.2 Unit cbFalsy 0 IntervalUnit.second 0 1000 []
    ⟨0, false, ()⟩

end DRI
